import Mathlib

/-!
Verification of the hls-downloader repository (src/downloader.py).

The development shallowly embeds the module: pure string manipulation
(urllib.parse.urlparse, slugify.slugify, os.path.join / dirname / sep) is
embedded as Lean functions over `List Char`; the stateful download
coordinator (`Downloader`) is embedded as explicit state passing over a
filesystem model `FS` and a network oracle `Net`; fallible code returns
`Except`.  Strings are modelled as `List Char` in the core functions, with
`String` wrappers at the boundaries.  The filesystem path separator is
modelled as the POSIX one, a single slash.
-/

set_option maxRecDepth 4000

namespace Hls

/-! ## ASCII character helpers -/

/-- ASCII lowercasing of a single character (models str.lower on ASCII). -/
def toLowerAscii (c : Char) : Char :=
  if 'A' ≤ c ∧ c ≤ 'Z' then Char.ofNat (c.toNat + 32) else c

/-- ASCII alphabetic test (models str.isalpha on ASCII input). -/
def isAlphaAscii (c : Char) : Bool :=
  (decide ('a' ≤ c) && decide (c ≤ 'z')) || (decide ('A' ≤ c) && decide (c ≤ 'Z'))

/-- ASCII digit test. -/
def isDigitAscii (c : Char) : Bool :=
  decide ('0' ≤ c) && decide (c ≤ '9')

/-- The characters urllib.parse allows in a URL scheme. -/
def isSchemeChar (c : Char) : Bool :=
  isAlphaAscii c || isDigitAscii c || c == '+' || c == '-' || c == '.'

/-- The characters that terminate the netloc component in urllib.parse. -/
def isNetlocEnd (c : Char) : Bool :=
  c == '/' || c == '?' || c == '#'

/-! ## List-of-characters utilities (Python str.split / sep.join) -/

/-- Python str.split(sep) with a one-character separator: splits on every
occurrence of sep and keeps empty pieces, so the result is never empty. -/
def splitOnChar (sep : Char) : List Char → List (List Char)
  | [] => [[]]
  | c :: rest =>
    match splitOnChar sep rest with
    | [] => [[]]
    | cur :: parts => if c == sep then [] :: cur :: parts else (c :: cur) :: parts

/-- Splitting on every character satisfying a predicate (used by the slugify
model to cut the text at every non-alphanumeric character). -/
def splitOnPred (p : Char → Bool) : List Char → List (List Char)
  | [] => [[]]
  | c :: rest =>
    match splitOnPred p rest with
    | [] => [[]]
    | cur :: parts => if p c then [] :: cur :: parts else (c :: cur) :: parts

/-- Python sep.join(parts) with a one-character separator. -/
def joinSepChar (sep : Char) : List (List Char) → List Char
  | [] => []
  | [s] => s
  | s :: t :: rest => s ++ sep :: joinSepChar sep (t :: rest)

/-! ## slugify model (external python-slugify library) -/

/-- Models slugify.slugify(text, separator) from the external python-slugify
library, on ASCII input: lowercase the text, cut it at every character that
is not a lowercase letter or digit, drop the empty pieces (collapsing runs
of unsafe characters and stripping them at both ends) and join the remaining
pieces with the separator. -/
def slugify (separator : Char) (text : List Char) : List Char :=
  joinSepChar separator
    ((splitOnPred (fun c => !(isAlphaAscii c || isDigitAscii c)) (text.map toLowerAscii)).filter
      (fun w => !w.isEmpty))

/-! ## urllib.parse.urlparse model -/

/-- The components produced by urllib.parse.urlparse. -/
structure UrlParts where
  scheme : List Char
  netloc : List Char
  path : List Char
  params : List Char
  query : List Char
  fragment : List Char

/-- Scheme extraction of urllib.parse.urlsplit: if the text before the first
colon is a nonempty run of scheme characters starting with a letter, it is
the (lowercased) scheme and the remainder follows the colon. -/
def splitScheme (url : List Char) : List Char × List Char :=
  let before := url.takeWhile (fun c => !(c == ':'))
  let after := url.dropWhile (fun c => !(c == ':'))
  if !after.isEmpty && !before.isEmpty && before.all isSchemeChar &&
      isAlphaAscii (before.headD ' ') then
    (before.map toLowerAscii, after.drop 1)
  else
    ([], url)

/-- Netloc extraction of urllib.parse.urlsplit: when the remainder starts
with two slashes, the netloc runs up to the next slash, question mark or
hash sign. -/
def splitNetloc (url : List Char) : List Char × List Char :=
  match url with
  | '/' :: '/' :: rest =>
    (rest.takeWhile (fun c => !isNetlocEnd c), rest.dropWhile (fun c => !isNetlocEnd c))
  | _ => ([], url)

/-- Fragment extraction of urllib.parse.urlsplit: split at the first hash
sign when present. -/
def splitFragment (url : List Char) : List Char × List Char :=
  (url.takeWhile (fun c => !(c == '#')), (url.dropWhile (fun c => !(c == '#'))).drop 1)

/-- Query extraction of urllib.parse.urlsplit: split at the first question
mark when present. -/
def splitQuery (url : List Char) : List Char × List Char :=
  (url.takeWhile (fun c => !(c == '?')), (url.dropWhile (fun c => !(c == '?'))).drop 1)

/-- Params extraction of urllib.parse.urlparse: when the last slash-separated
segment of the path contains a semicolon, the part after the first semicolon
of that segment becomes the params component. -/
def splitparams (p : List Char) : List Char × List Char :=
  let rev := p.reverse
  let lastRev := rev.takeWhile (fun c => !(c == '/'))
  let preRev := rev.dropWhile (fun c => !(c == '/'))
  let last := lastRev.reverse
  if last.contains ';' then
    (preRev.reverse ++ last.takeWhile (fun c => !(c == ';')),
      (last.dropWhile (fun c => !(c == ';'))).drop 1)
  else
    (p, [])

/-- Models urllib.parse.urlparse for the absolute URIs this module handles:
scheme, then netloc after a double slash, then fragment, query and params. -/
def urlparse (url : List Char) : UrlParts :=
  let s := splitScheme url
  let n := splitNetloc s.2
  let f := splitFragment n.2
  let q := splitQuery f.1
  let pp := splitparams q.1
  ⟨s.1, n.1, pp.1, pp.2, q.2, f.2⟩

/-! ## os.path model (POSIX) -/

/-- os.path.sep on the modelled POSIX platform. -/
def osPathSep : Char := '/'

/-- posixpath.join for two components: the second wins when absolute,
otherwise they are glued with a slash unless one is already there. -/
def osPathJoin (a b : List Char) : List Char :=
  match b with
  | '/' :: _ => b
  | _ =>
    if a.isEmpty then b
    else if a.getLast? = some '/' then a ++ b
    else a ++ '/' :: b

/-- posixpath.dirname: the text before the last slash, with trailing slashes
stripped unless the result consists only of slashes. -/
def osPathDirname (p : List Char) : List Char :=
  let head := (p.reverse.dropWhile (fun c => !(c == '/'))).reverse
  if !head.isEmpty && head.any (fun c => !(c == '/')) then
    (head.reverse.dropWhile (fun c => c == '/')).reverse
  else
    head

/-! ## The path mapper (Downloader.filter_filename_part / uri_to_filename) -/

/-- Downloader.filter_filename_part: sanitize one path segment by slugifying
each dot-delimited piece separately and rejoining the pieces with dots
(src/downloader.py lines 41-50). -/
def filter_filename_part (s : List Char) : List Char :=
  joinSepChar '.' ((splitOnChar '.' s).map (slugify '_'))

/-- The raw segment list rel_filename_parts built by Downloader.uri_to_filename
(src/downloader.py line 80): the netloc followed by the path split on slashes,
with the leading piece dropped and every empty piece filtered out. -/
def rel_filename_parts (absolute_uri : List Char) : List (List Char) :=
  let url_parts := urlparse absolute_uri
  url_parts.netloc :: ((splitOnChar '/' url_parts.path).drop 1).filter (fun s => !s.isEmpty)

/-- Core of Downloader.uri_to_filename (src/downloader.py lines 74-84):
sanitize each raw segment, join the results with os.path.sep and prepend the
download directory with os.path.join. -/
def uriToFilenameCore (download_dir absolute_uri : List Char) : List Char :=
  osPathJoin download_dir (joinSepChar osPathSep ((rel_filename_parts absolute_uri).map filter_filename_part))

/-! ## Coordinator state, filesystem and network models -/

/-- Insertion into an insertion-ordered association list: the update of an
existing key keeps its position, a new key is appended at the end.  Models
assignment into a collections.OrderedDict. -/
def odInsert {α : Type} (k : String) (v : α) : List (String × α) → List (String × α)
  | [] => [(k, v)]
  | (k2, v2) :: rest => if k2 = k then (k, v) :: rest else (k2, v2) :: odInsert k v rest

/-- Lookup in an association list; models dict.get (None when absent). -/
def odLookup {α : Type} (k : String) : List (String × α) → Option α
  | [] => none
  | (k2, v2) :: rest => if k2 = k then some v2 else odLookup k rest

/-- The filesystem model: file contents by path, plus the set of existing
directories.  File contents are byte lists. -/
structure FS where
  files : List (String × List Nat)
  dirs : List String

/-- os.path.isfile. -/
def FS.isfile (fs : FS) (p : String) : Bool :=
  (odLookup p fs.files).isSome

/-- The bytes currently stored at a path (empty when the file is absent). -/
def FS.content (fs : FS) (p : String) : List Nat :=
  (odLookup p fs.files).getD []

/-- os.path.getsize (callers only use it on existing files). -/
def FS.size (fs : FS) (p : String) : Nat :=
  (fs.content p).length

/-- Creating or truncating a file and writing the given bytes. -/
def FS.write (fs : FS) (p : String) (c : List Nat) : FS :=
  { fs with files := odInsert p c fs.files }

/-- os.path.isdir.  Ancestor directories are not tracked: no claim observes
them. -/
def FS.isdir (fs : FS) (p : String) : Bool :=
  fs.dirs.contains p

/-- os.makedirs (ancestor creation elided, see FS.isdir). -/
def FS.makedirs (fs : FS) (p : String) : FS :=
  { fs with dirs := p :: fs.dirs }

/-- A network request issued through the HTTP session. -/
inductive Request where
  | head (uri : String)
  | get (uri : String)
deriving DecidableEq

/-- The outcome of a streaming GET once the HTTP layer has finished its own
retry policy: either some response whose body arrives as byte chunks, or a
requests.RequestException. -/
inductive GetOutcome where
  | ok (status : Nat) (chunks : List (List Nat))
  | exn
deriving DecidableEq

/-- The network oracle: the Content-Length header a HEAD for a URI reports
(none when the header is absent), and the outcome of a GET for a URI.  It is
fixed for a session, modelling remote content that does not change. -/
structure Net where
  headCL : String → Option Nat
  getOut : String → GetOutcome

/-- The errors download_one_file can raise in the model: the NameError
raised by _retrieve_uri_to_file when it reads the unbound variable resp
after a failed GET. -/
inductive PyError where
  | nameError
deriving DecidableEq

/-- The Downloader state (src/downloader.py lines 52-66): the fixed download
directory, the insertion-ordered record of downloaded files by URI, and the
advisory process-count hint.  The HTTP session and headers are modelled by
the Net oracle. -/
structure Downloader where
  download_dir : String
  downloaded_files_by_uri : List (String × String)
  nprocesses : Nat
deriving DecidableEq

/-- Downloader.__init__: the record starts empty. -/
def Downloader.init (download_dir : String) (nprocesses : Nat) : Downloader :=
  ⟨download_dir, [], nprocesses⟩

/-- String-level wrapper of uriToFilenameCore. -/
def uriToFilename (download_dir absolute_uri : String) : String :=
  ⟨uriToFilenameCore download_dir.data absolute_uri.data⟩

/-- Downloader.uri_to_filename as a method: it reads only the fixed
download directory from the state. -/
def Downloader.uri_to_filename (self : Downloader) (absolute_uri : String) : String :=
  uriToFilename self.download_dir absolute_uri

/-- Downloader.url_and_file_size_diff (src/downloader.py lines 86-101):
issue a HEAD; when the Content-Length header is absent return None, else
return the header value minus the local file size. -/
def url_and_file_size_diff (net : Net) (fs : FS) (uri filename : String) :
    Option Int × List Request :=
  match net.headCL uri with
  | none => (none, [Request.head uri])
  | some n => (some ((n : Int) - (fs.size filename : Int)), [Request.head uri])

/-- Downloader._retrieve_uri_to_file (src/downloader.py lines 103-126).
The GET is wrapped in try/except: a RequestException is only logged, and
control falls through to the write step in both cases.  The write step opens
the file in wb mode, truncating it; on the exception path the response
variable is unbound, so after the truncating open a NameError is raised and
nothing is written; on the success path every chunk of the body is written. -/
def retrieve_uri_to_file (net : Net) (fs : FS) (uri filename : String) :
    FS × List Request × Option PyError :=
  match net.getOut uri with
  | GetOutcome.ok _ chunks => (fs.write filename chunks.flatten, [Request.get uri], none)
  | GetOutcome.exn => (fs.write filename [], [Request.get uri], some PyError.nameError)

/-- The result of one download_one_file call: the updated coordinator state
and filesystem, the network requests issued, and the returned path or the
raised error. -/
structure DlResult where
  dl : Downloader
  fs : FS
  reqs : List Request
  result : Except PyError String

/-- The shared tail of Downloader.download_one_file (src/downloader.py lines
147-155): ensure the parent directory exists, fetch, and record the mapping
unless the fetch raised. -/
def finishDownload (net : Net) (dl : Downloader) (fs : FS) (uri filename : String)
    (reqs0 : List Request) : DlResult :=
  let dst_dir : String := ⟨osPathDirname filename.data⟩
  let fs1 := if fs.isdir dst_dir = true then fs else fs.makedirs dst_dir
  match retrieve_uri_to_file net fs1 uri filename with
  | (fs2, reqs2, none) =>
    { dl := { dl with downloaded_files_by_uri := odInsert uri filename dl.downloaded_files_by_uri },
      fs := fs2, reqs := reqs0 ++ reqs2, result := Except.ok filename }
  | (fs2, reqs2, some e) =>
    { dl := dl, fs := fs2, reqs := reqs0 ++ reqs2, result := Except.error e }

/-- Downloader.download_one_file (src/downloader.py lines 128-155): return
at once when this URI was already downloaded to this path in this session;
otherwise, when a file exists at the path, compare sizes via HEAD and skip
the download when the difference is exactly zero; otherwise fall through to
the fetch-and-write tail.  The size-mismatch warning is only logging. -/
def download_one_file (net : Net) (dl : Downloader) (fs : FS) (absolute_uri : String) :
    DlResult :=
  let filename := dl.uri_to_filename absolute_uri
  if odLookup absolute_uri dl.downloaded_files_by_uri = some filename then
    { dl := dl, fs := fs, reqs := [], result := Except.ok filename }
  else if fs.isfile filename = true then
    let hd := url_and_file_size_diff net fs absolute_uri filename
    if hd.1 = some 0 then
      { dl := { dl with downloaded_files_by_uri := odInsert absolute_uri filename dl.downloaded_files_by_uri },
        fs := fs, reqs := hd.2, result := Except.ok filename }
    else
      finishDownload net dl fs absolute_uri filename hd.2
  else
    finishDownload net dl fs absolute_uri filename []

/-- A sequence of download_one_file calls from a driver that carries on after
a failed URI (spec section 7: other future URIs are unaffected). -/
def runCalls (net : Net) : Downloader × FS → List String → Downloader × FS
  | st, [] => st
  | (dl, fs), u :: us =>
    let r := download_one_file net dl fs u
    runCalls net (r.dl, r.fs) us

/-- The full body a GET for a URI delivers (empty on the exception path,
where no insertion into the record ever happens). -/
def getBody (net : Net) (uri : String) : List Nat :=
  match net.getOut uri with
  | GetOutcome.ok _ chunks => chunks.flatten
  | GetOutcome.exn => []

/-- The record invariant of spec section 3: every URI in the record points to
an existing file whose size matches the last-known remote size (the
Content-Length a HEAD for that URI reports) or whose content is exactly the
full body a GET for that URI delivers (freshly written in full). -/
def RecordOK (net : Net) (dl : Downloader) (fs : FS) : Prop :=
  ∀ uri path, odLookup uri dl.downloaded_files_by_uri = some path →
    fs.isfile path = true ∧
      (net.headCL uri = some (fs.size path) ∨ fs.content path = getBody net uri)

/-- Auxiliary invariant: every record entry maps a URI to its mapped path. -/
def RecordPaths (dl : Downloader) : Prop :=
  ∀ uri path, odLookup uri dl.downloaded_files_by_uri = some path →
    path = dl.uri_to_filename uri

/-! ## Heap model for the record accessor (OrderedDict.copy) -/

/-- Reading a cell of a heap of dictionaries by address. -/
def listGetD {α : Type} (default : α) : List α → Nat → α
  | [], _ => default
  | x :: _, 0 => x
  | _ :: xs, n + 1 => listGetD default xs n

/-- Overwriting a cell of a heap of dictionaries by address. -/
def listSet {α : Type} : List α → Nat → α → List α
  | [], _, _ => []
  | _ :: xs, 0, v => v :: xs
  | x :: xs, n + 1, v => x :: listSet xs n v

/-- A heap of dictionary objects, addressed by allocation index.  It makes
the difference between returning a reference and returning a copy
observable, which a plain value model cannot. -/
structure DictHeap where
  cells : List (List (String × String))

/-- Dereferencing a dictionary address. -/
def DictHeap.get (h : DictHeap) (a : Nat) : List (String × String) :=
  listGetD [] h.cells a

/-- Mutating the dictionary at an address in place. -/
def DictHeap.set (h : DictHeap) (a : Nat) (v : List (String × String)) : DictHeap :=
  ⟨listSet h.cells a v⟩

/-- Allocating a fresh dictionary and returning its address. -/
def DictHeap.alloc (h : DictHeap) (v : List (String × String)) : DictHeap × Nat :=
  (⟨h.cells ++ [v]⟩, h.cells.length)

/-- Downloader.downloaded_files_by_url (src/downloader.py lines 71-72):
returns self downloaded record .copy(), that is, allocates a fresh
dictionary holding the same entries in the same order and returns a
reference to the fresh object, not to the internal one. -/
def downloaded_files_by_url (h : DictHeap) (selfRecord : Nat) : DictHeap × Nat :=
  h.alloc (h.get selfRecord)

/-! ## URI construction from components (for relational claims) -/

/-- Builds the text of an absolute URI from its components: scheme, colon,
double slash, host, path, then the query after a question mark when nonempty
and the fragment after a hash sign when nonempty. -/
def mkUriCore (scheme host path query fragment : List Char) : List Char :=
  scheme ++ (':' :: '/' :: '/' ::
    (host ++ (path ++ ((if query.isEmpty then [] else '?' :: query) ++
      (if fragment.isEmpty then [] else '#' :: fragment)))))

/-- String-level wrapper of mkUriCore. -/
def mkUri (scheme host path query fragment : String) : String :=
  ⟨mkUriCore scheme.data host.data path.data query.data fragment.data⟩

/-! ## Concrete instances used by counterexamples and witnesses -/

/-- A URI-independent network oracle: no Content-Length on HEAD, every GET
fails with a RequestException once retries are exhausted. -/
def netFail : Net :=
  ⟨fun _ => none, fun _ => GetOutcome.exn⟩

/-- A network oracle for the record-invariant counterexample: no
Content-Length on HEAD; a GET delivers three bytes for the first URI and one
byte for any other. -/
def netAlias : Net :=
  ⟨fun _ => none,
    fun u => if u = "http://h/f" then GetOutcome.ok 200 [[1, 2, 3]] else GetOutcome.ok 200 [[4]]⟩

/-- A network oracle reporting Content-Length 3 on every HEAD and failing
every GET (so any successful call cannot have issued a GET). -/
def netHead3 : Net :=
  ⟨fun _ => some 3, fun _ => GetOutcome.exn⟩

/-- A network oracle with no Content-Length and a fixed two-chunk body. -/
def netChunks : Net :=
  ⟨fun _ => none, fun _ => GetOutcome.ok 200 [[5], [6]]⟩

/-- A network oracle with a one-byte body and a matching Content-Length. -/
def netOne : Net :=
  ⟨fun _ => some 1, fun _ => GetOutcome.ok 200 [[9]]⟩

/-! ## Association list lemmas -/

theorem odLookup_odInsert_self {α : Type} (k : String) (v : α) (l : List (String × α)) :
    odLookup k (odInsert k v l) = some v := by
  induction l with
  | nil => simp [odInsert, odLookup]
  | cons hd tl ih =>
    obtain ⟨k2, v2⟩ := hd
    by_cases h : k2 = k
    · simp [odInsert, odLookup, h]
    · simp [odInsert, odLookup, h, ih]

theorem odLookup_odInsert_ne {α : Type} (k k2 : String) (v : α) (l : List (String × α))
    (h : ¬ k2 = k) : odLookup k2 (odInsert k v l) = odLookup k2 l := by
  have h2 : ¬ k = k2 := fun e => h e.symm
  induction l with
  | nil => simp [odInsert, odLookup, h2]
  | cons hd tl ih =>
    obtain ⟨k3, v3⟩ := hd
    by_cases h3 : k3 = k
    · subst h3
      simp [odInsert, odLookup, h2]
    · simp [odInsert, odLookup, h3, ih]

/-! ## Filesystem lemmas -/

theorem FS.files_write (fs : FS) (p : String) (c : List Nat) :
    (fs.write p c).files = odInsert p c fs.files := rfl

theorem FS.content_write_self (fs : FS) (p : String) (c : List Nat) :
    (fs.write p c).content p = c := by
  simp [FS.content, FS.write, odLookup_odInsert_self]

theorem FS.isfile_write_self (fs : FS) (p : String) (c : List Nat) :
    (fs.write p c).isfile p = true := by
  simp [FS.isfile, FS.write, odLookup_odInsert_self]

theorem FS.content_write_ne (fs : FS) (p q : String) (c : List Nat) (h : ¬ q = p) :
    (fs.write p c).content q = fs.content q := by
  simp [FS.content, FS.write, odLookup_odInsert_ne p q c fs.files h]

theorem FS.isfile_write_ne (fs : FS) (p q : String) (c : List Nat) (h : ¬ q = p) :
    (fs.write p c).isfile q = fs.isfile q := by
  simp [FS.isfile, FS.write, odLookup_odInsert_ne p q c fs.files h]

theorem FS.size_write_ne (fs : FS) (p q : String) (c : List Nat) (h : ¬ q = p) :
    (fs.write p c).size q = fs.size q := by
  simp [FS.size, FS.content_write_ne fs p q c h]

theorem FS.content_makedirs (fs : FS) (d p : String) :
    (fs.makedirs d).content p = fs.content p := rfl

theorem FS.isfile_makedirs (fs : FS) (d p : String) :
    (fs.makedirs d).isfile p = fs.isfile p := rfl

theorem FS.size_makedirs (fs : FS) (d p : String) :
    (fs.makedirs d).size p = fs.size p := rfl

theorem FS.mkdirsIf_content (fs : FS) (b : Bool) (d p : String) :
    ((if b = true then fs else fs.makedirs d)).content p = fs.content p := by
  split <;> rfl

theorem FS.mkdirsIf_isfile (fs : FS) (b : Bool) (d p : String) :
    ((if b = true then fs else fs.makedirs d)).isfile p = fs.isfile p := by
  split <;> rfl

theorem FS.mkdirsIf_size (fs : FS) (b : Bool) (d p : String) :
    ((if b = true then fs else fs.makedirs d)).size p = fs.size p := by
  split <;> rfl

/-! ## takeWhile / dropWhile lemmas -/

theorem takeWhile_append_all {α : Type} (p : α → Bool) (a l : List α)
    (h : ∀ x ∈ a, p x = true) : (a ++ l).takeWhile p = a ++ l.takeWhile p := by
  induction a with
  | nil => simp
  | cons x xs ih =>
    simp only [List.cons_append, List.takeWhile_cons, h x (List.mem_cons_self x xs), if_pos]
    rw [ih fun y hy => h y (List.mem_cons_of_mem x hy)]

theorem dropWhile_append_all {α : Type} (p : α → Bool) (a l : List α)
    (h : ∀ x ∈ a, p x = true) : (a ++ l).dropWhile p = l.dropWhile p := by
  induction a with
  | nil => simp
  | cons x xs ih =>
    simp only [List.cons_append, List.dropWhile_cons, h x (List.mem_cons_self x xs), if_pos]
    exact ih fun y hy => h y (List.mem_cons_of_mem x hy)

theorem takeWhile_cons_neg {α : Type} (p : α → Bool) (x : α) (l : List α)
    (h : p x = false) : (x :: l).takeWhile p = [] := by
  simp [List.takeWhile_cons, h]

theorem dropWhile_cons_neg {α : Type} (p : α → Bool) (x : α) (l : List α)
    (h : p x = false) : (x :: l).dropWhile p = x :: l := by
  simp [List.dropWhile_cons, h]

/-! ## splitOnChar lemmas -/

theorem splitOnChar_ne_nil (sep : Char) (l : List Char) : splitOnChar sep l ≠ [] := by
  cases l with
  | nil => simp [splitOnChar]
  | cons c rest =>
    simp only [splitOnChar]
    cases splitOnChar sep rest with
    | nil => simp
    | cons cur parts =>
      by_cases h : (c == sep) = true <;> simp [h]

theorem splitOnChar_no_sep (sep : Char) (l : List Char) (h : ∀ c ∈ l, ¬ c = sep) :
    splitOnChar sep l = [l] := by
  induction l with
  | nil => rfl
  | cons c rest ih =>
    have hc : (c == sep) = false :=
      beq_eq_false_iff_ne.mpr (h c (List.mem_cons_self c rest))
    simp only [splitOnChar, ih fun x hx => h x (List.mem_cons_of_mem c hx), hc]
    simp

theorem splitOnChar_cons_sep (sep : Char) (l : List Char) :
    splitOnChar sep (sep :: l) = [] :: splitOnChar sep l := by
  simp only [splitOnChar]
  cases h : splitOnChar sep l with
  | nil => exact absurd h (splitOnChar_ne_nil sep l)
  | cons cur parts => simp

theorem splitOnChar_append (sep : Char) (a l : List Char) (ha : ∀ c ∈ a, ¬ c = sep)
    (y : List Char) (ys : List (List Char)) (hl : splitOnChar sep l = y :: ys) :
    splitOnChar sep (a ++ l) = (a ++ y) :: ys := by
  induction a with
  | nil => simpa using hl
  | cons c rest ih =>
    have hc : (c == sep) = false :=
      beq_eq_false_iff_ne.mpr (ha c (List.mem_cons_self c rest))
    have ih2 := ih fun x hx => ha x (List.mem_cons_of_mem c hx)
    simp only [List.cons_append, splitOnChar, List.append_eq]
    rw [ih2]
    simp [hc]

theorem splitOnChar_joinSep (sep : Char) (segs : List (List Char))
    (h : ∀ s ∈ segs, ∀ c ∈ s, ¬ c = sep) :
    splitOnChar sep (joinSepChar sep segs) = if segs.isEmpty then [[]] else segs := by
  induction segs with
  | nil => rfl
  | cons s rest ih =>
    cases rest with
    | nil =>
      simpa [joinSepChar] using
        splitOnChar_no_sep sep s (h s (List.mem_cons_self s []))
    | cons t ts =>
      have hrest : splitOnChar sep (joinSepChar sep (t :: ts)) = t :: ts := by
        simpa using ih fun x hx => h x (List.mem_cons_of_mem s hx)
      have hcons : splitOnChar sep (sep :: joinSepChar sep (t :: ts)) =
          [] :: t :: ts := by
        rw [splitOnChar_cons_sep, hrest]
      have := splitOnChar_append sep s (sep :: joinSepChar sep (t :: ts))
        (h s (List.mem_cons_self s (t :: ts))) [] (t :: ts) hcons
      simpa [joinSepChar] using this

/-! ## urlparse lemmas -/

theorem isSchemeChar_bne_colon (c : Char) (h : isSchemeChar c = true) : (c == ':') = false := by
  by_cases hc : c = ':'
  · subst hc
    exact absurd h (by decide)
  · exact beq_eq_false_iff_ne.mpr hc

theorem splitScheme_eq (scheme rest : List Char) (h1 : scheme ≠ [])
    (h2 : ∀ c ∈ scheme, isSchemeChar c = true)
    (h3 : isAlphaAscii (scheme.headD ' ') = true) :
    splitScheme (scheme ++ ':' :: rest) = (scheme.map toLowerAscii, rest) := by
  have hall : ∀ c ∈ scheme, (!(c == ':')) = true := by
    intro c hc
    simp [isSchemeChar_bne_colon c (h2 c hc)]
  have hbefore : (scheme ++ ':' :: rest).takeWhile (fun c => !(c == ':')) = scheme := by
    rw [takeWhile_append_all _ _ _ hall, takeWhile_cons_neg _ _ _ (by simp)]
    simp
  have hafter : (scheme ++ ':' :: rest).dropWhile (fun c => !(c == ':')) = ':' :: rest := by
    rw [dropWhile_append_all _ _ _ hall, dropWhile_cons_neg _ _ _ (by simp)]
  obtain ⟨c, cs, rfl⟩ := List.exists_cons_of_ne_nil h1
  simp only [splitScheme, hbefore, hafter]
  rw [if_pos]
  · simp
  · have h3c : isAlphaAscii c = true := by simpa using h3
    simp [List.all_eq_true.mpr h2, h3c]

theorem splitNetloc_eq (host rest : List Char) (hh : ∀ c ∈ host, isNetlocEnd c = false)
    (hrest : rest = [] ∨ ∃ c t, rest = c :: t ∧ isNetlocEnd c = true) :
    splitNetloc ('/' :: '/' :: (host ++ rest)) = (host, rest) := by
  have hall : ∀ c ∈ host, (!isNetlocEnd c) = true := by
    intro c hc
    simp [hh c hc]
  simp only [splitNetloc]
  rw [takeWhile_append_all _ _ _ hall, dropWhile_append_all _ _ _ hall]
  rcases hrest with rfl | ⟨c, t, rfl, hc⟩
  · simp
  · rw [takeWhile_cons_neg _ _ _ (by simp [hc]), dropWhile_cons_neg _ _ _ (by simp [hc])]
    simp

theorem splitFragment_eq (a fpart : List Char) (ha : ∀ c ∈ a, ¬ c = '#')
    (hf : fpart = [] ∨ ∃ f, fpart = '#' :: f) :
    splitFragment (a ++ fpart) = (a, fpart.drop 1) := by
  have hall : ∀ c ∈ a, (!(c == '#')) = true := by
    intro c hc
    simp [beq_eq_false_iff_ne.mpr (ha c hc)]
  simp only [splitFragment]
  rw [takeWhile_append_all _ _ _ hall, dropWhile_append_all _ _ _ hall]
  rcases hf with rfl | ⟨f, rfl⟩
  · simp
  · rw [takeWhile_cons_neg _ _ _ (by simp), dropWhile_cons_neg _ _ _ (by simp)]
    simp

theorem splitQuery_eq (a qpart : List Char) (ha : ∀ c ∈ a, ¬ c = '?')
    (hq : qpart = [] ∨ ∃ q, qpart = '?' :: q) :
    splitQuery (a ++ qpart) = (a, qpart.drop 1) := by
  have hall : ∀ c ∈ a, (!(c == '?')) = true := by
    intro c hc
    simp [beq_eq_false_iff_ne.mpr (ha c hc)]
  simp only [splitQuery]
  rw [takeWhile_append_all _ _ _ hall, dropWhile_append_all _ _ _ hall]
  rcases hq with rfl | ⟨q, rfl⟩
  · simp
  · rw [takeWhile_cons_neg _ _ _ (by simp), dropWhile_cons_neg _ _ _ (by simp)]
    simp

theorem splitparams_no_semi (p : List Char) (h : ∀ c ∈ p, ¬ c = ';') :
    splitparams p = (p, []) := by
  simp only [splitparams]
  rw [if_neg]
  intro hsemi
  rw [List.contains, List.elem_iff] at hsemi
  rw [List.mem_reverse] at hsemi
  have hmem := List.takeWhile_subset _ hsemi
  rw [List.mem_reverse] at hmem
  exact h ';' hmem rfl

theorem urlparse_build (scheme host path qpart fpart : List Char)
    (h1 : scheme ≠ []) (h2 : ∀ c ∈ scheme, isSchemeChar c = true)
    (h3 : isAlphaAscii (scheme.headD ' ') = true)
    (hh : ∀ c ∈ host, isNetlocEnd c = false)
    (hp0 : path = [] ∨ ∃ t, path = '/' :: t)
    (hpq : ∀ c ∈ path ++ qpart, ¬ c = '#')
    (hpp : ∀ c ∈ path, ¬ c = '?')
    (hq2 : qpart = [] ∨ ∃ q, qpart = '?' :: q)
    (hf2 : fpart = [] ∨ ∃ f, fpart = '#' :: f) :
    (urlparse (scheme ++ ':' :: '/' :: '/' :: (host ++ (path ++ (qpart ++ fpart))))).netloc = host ∧
    (urlparse (scheme ++ ':' :: '/' :: '/' :: (host ++ (path ++ (qpart ++ fpart))))).path =
      (splitparams path).1 := by
  have hA := splitScheme_eq scheme ('/' :: '/' :: (host ++ (path ++ (qpart ++ fpart)))) h1 h2 h3
  have hrest : path ++ (qpart ++ fpart) = [] ∨
      ∃ c t, path ++ (qpart ++ fpart) = c :: t ∧ isNetlocEnd c = true := by
    rcases hp0 with rfl | ⟨t, rfl⟩
    · rcases hq2 with rfl | ⟨q, rfl⟩
      · rcases hf2 with rfl | ⟨f, rfl⟩
        · exact Or.inl rfl
        · exact Or.inr ⟨'#', f, rfl, by decide⟩
      · exact Or.inr ⟨'?', q ++ fpart, rfl, by decide⟩
    · exact Or.inr ⟨'/', t ++ (qpart ++ fpart), rfl, by decide⟩
  have hB := splitNetloc_eq host (path ++ (qpart ++ fpart)) hh hrest
  have hC : splitFragment (path ++ (qpart ++ fpart)) = (path ++ qpart, fpart.drop 1) := by
    rw [← List.append_assoc]
    exact splitFragment_eq (path ++ qpart) fpart hpq hf2
  have hD := splitQuery_eq path qpart hpp hq2
  constructor
  · simp only [urlparse, hA, hB]
  · simp only [urlparse, hA, hB, hC, hD]

theorem urlparse_mkUri (scheme host path query fragment : List Char)
    (h1 : scheme ≠ []) (h2 : ∀ c ∈ scheme, isSchemeChar c = true)
    (h3 : isAlphaAscii (scheme.headD ' ') = true)
    (hh : ∀ c ∈ host, isNetlocEnd c = false)
    (hp0 : path = [] ∨ ∃ t, path = '/' :: t)
    (hp : ∀ c ∈ path, ¬ c = '?' ∧ ¬ c = '#')
    (hq : ∀ c ∈ query, ¬ c = '#') :
    (urlparse (mkUriCore scheme host path query fragment)).netloc = host ∧
    (urlparse (mkUriCore scheme host path query fragment)).path = (splitparams path).1 := by
  have hq2 : (if query.isEmpty then ([] : List Char) else '?' :: query) = [] ∨
      ∃ q, (if query.isEmpty then ([] : List Char) else '?' :: query) = '?' :: q := by
    cases h : query.isEmpty
    · exact Or.inr ⟨query, by simp [h]⟩
    · exact Or.inl (by simp [h])
  have hf2 : (if fragment.isEmpty then ([] : List Char) else '#' :: fragment) = [] ∨
      ∃ f, (if fragment.isEmpty then ([] : List Char) else '#' :: fragment) = '#' :: f := by
    cases h : fragment.isEmpty
    · exact Or.inr ⟨fragment, by simp [h]⟩
    · exact Or.inl (by simp [h])
  have hpq : ∀ c ∈ path ++ (if query.isEmpty then ([] : List Char) else '?' :: query),
      ¬ c = '#' := by
    intro c hc
    rcases List.mem_append.mp hc with hc | hc
    · exact (hp c hc).2
    · cases h : query.isEmpty
      · simp [h] at hc
        rcases hc with rfl | hc
        · decide
        · exact hq c hc
      · simp [h] at hc
  have hpp : ∀ c ∈ path, ¬ c = '?' := fun c hc => (hp c hc).1
  simp only [mkUriCore]
  exact urlparse_build scheme host path _ _ h1 h2 h3 hh hp0 hpq hpp hq2 hf2

/-! ## Structural lemmas about download_one_file -/

theorem url_and_file_size_diff_snd (net : Net) (fs : FS) (uri filename : String) :
    (url_and_file_size_diff net fs uri filename).2 = [Request.head uri] := by
  simp only [url_and_file_size_diff]
  cases net.headCL uri <;> rfl

theorem url_and_file_size_diff_fst_none (net : Net) (fs : FS) (uri filename : String)
    (h : net.headCL uri = none) :
    (url_and_file_size_diff net fs uri filename).1 = none := by
  simp [url_and_file_size_diff, h]

theorem url_and_file_size_diff_fst_some (net : Net) (fs : FS) (uri filename : String) (n : Nat)
    (h : net.headCL uri = some n) :
    (url_and_file_size_diff net fs uri filename).1 =
      some ((n : Int) - (fs.size filename : Int)) := by
  simp [url_and_file_size_diff, h]

theorem finishDownload_ok (net : Net) (dl : Downloader) (fs : FS) (uri filename : String)
    (reqs0 : List Request) (st : Nat) (chunks : List (List Nat))
    (hget : net.getOut uri = GetOutcome.ok st chunks) :
    finishDownload net dl fs uri filename reqs0 =
      { dl := { dl with
          downloaded_files_by_uri := odInsert uri filename dl.downloaded_files_by_uri },
        fs := FS.write (if fs.isdir ⟨osPathDirname filename.data⟩ = true then fs
            else fs.makedirs ⟨osPathDirname filename.data⟩) filename chunks.flatten,
        reqs := reqs0 ++ [Request.get uri],
        result := Except.ok filename } := by
  simp only [finishDownload, retrieve_uri_to_file, hget]

theorem finishDownload_exn (net : Net) (dl : Downloader) (fs : FS) (uri filename : String)
    (reqs0 : List Request) (hget : net.getOut uri = GetOutcome.exn) :
    finishDownload net dl fs uri filename reqs0 =
      { dl := dl,
        fs := FS.write (if fs.isdir ⟨osPathDirname filename.data⟩ = true then fs
            else fs.makedirs ⟨osPathDirname filename.data⟩) filename [],
        reqs := reqs0 ++ [Request.get uri],
        result := Except.error PyError.nameError } := by
  simp only [finishDownload, retrieve_uri_to_file, hget]

theorem download_one_file_hit (net : Net) (dl : Downloader) (fs : FS) (uri : String)
    (h : odLookup uri dl.downloaded_files_by_uri = some (dl.uri_to_filename uri)) :
    download_one_file net dl fs uri = ⟨dl, fs, [], Except.ok (dl.uri_to_filename uri)⟩ := by
  simp only [download_one_file]
  rw [if_pos h]

theorem download_one_file_size0 (net : Net) (dl : Downloader) (fs : FS) (uri : String)
    (h1 : ¬ odLookup uri dl.downloaded_files_by_uri = some (dl.uri_to_filename uri))
    (h2 : fs.isfile (dl.uri_to_filename uri) = true)
    (h3 : (url_and_file_size_diff net fs uri (dl.uri_to_filename uri)).1 = some 0) :
    download_one_file net dl fs uri =
      ⟨{ dl with downloaded_files_by_uri :=
          odInsert uri (dl.uri_to_filename uri) dl.downloaded_files_by_uri },
        fs, [Request.head uri], Except.ok (dl.uri_to_filename uri)⟩ := by
  simp only [download_one_file]
  rw [if_neg h1, if_pos h2, if_pos h3, url_and_file_size_diff_snd]

theorem download_one_file_mismatch (net : Net) (dl : Downloader) (fs : FS) (uri : String)
    (h1 : ¬ odLookup uri dl.downloaded_files_by_uri = some (dl.uri_to_filename uri))
    (h2 : fs.isfile (dl.uri_to_filename uri) = true)
    (h3 : ¬ (url_and_file_size_diff net fs uri (dl.uri_to_filename uri)).1 = some 0) :
    download_one_file net dl fs uri =
      finishDownload net dl fs uri (dl.uri_to_filename uri) [Request.head uri] := by
  simp only [download_one_file]
  rw [if_neg h1, if_pos h2, if_neg h3, url_and_file_size_diff_snd]

theorem download_one_file_nofile (net : Net) (dl : Downloader) (fs : FS) (uri : String)
    (h1 : ¬ odLookup uri dl.downloaded_files_by_uri = some (dl.uri_to_filename uri))
    (h2 : ¬ fs.isfile (dl.uri_to_filename uri) = true) :
    download_one_file net dl fs uri =
      finishDownload net dl fs uri (dl.uri_to_filename uri) [] := by
  simp only [download_one_file]
  rw [if_neg h1, if_neg h2]

theorem finishDownload_dir (net : Net) (dl : Downloader) (fs : FS) (uri filename : String)
    (reqs0 : List Request) :
    (finishDownload net dl fs uri filename reqs0).dl.download_dir = dl.download_dir := by
  simp only [finishDownload, retrieve_uri_to_file]
  cases net.getOut uri <;> rfl

theorem download_one_file_dir (net : Net) (dl : Downloader) (fs : FS) (uri : String) :
    (download_one_file net dl fs uri).dl.download_dir = dl.download_dir := by
  simp only [download_one_file]
  split
  · rfl
  · split
    · split
      · rfl
      · exact finishDownload_dir ..
    · exact finishDownload_dir ..

theorem uri_to_filename_congr (d1 d2 : Downloader) (uri : String)
    (h : d1.download_dir = d2.download_dir) :
    d1.uri_to_filename uri = d2.uri_to_filename uri := by
  simp only [Downloader.uri_to_filename, h]

theorem runCalls_nil (net : Net) (st : Downloader × FS) : runCalls net st [] = st := by
  cases st
  rfl

theorem runCalls_cons (net : Net) (dl : Downloader) (fs : FS) (u : String) (us : List String) :
    runCalls net (dl, fs) (u :: us) =
      runCalls net ((download_one_file net dl fs u).dl, (download_one_file net dl fs u).fs) us :=
  rfl

theorem download_one_file_success (net : Net) (dl : Downloader) (fs : FS) (uri p : String)
    (h : (download_one_file net dl fs uri).result = Except.ok p) :
    p = dl.uri_to_filename uri ∧
    odLookup uri (download_one_file net dl fs uri).dl.downloaded_files_by_uri = some p := by
  by_cases h1 : odLookup uri dl.downloaded_files_by_uri = some (dl.uri_to_filename uri)
  · rw [download_one_file_hit net dl fs uri h1] at h ⊢
    have hp : dl.uri_to_filename uri = p := by simpa using h
    subst hp
    exact ⟨rfl, h1⟩
  · by_cases h2 : fs.isfile (dl.uri_to_filename uri) = true
    · by_cases h3 : (url_and_file_size_diff net fs uri (dl.uri_to_filename uri)).1 = some 0
      · rw [download_one_file_size0 net dl fs uri h1 h2 h3] at h ⊢
        have hp : dl.uri_to_filename uri = p := by simpa using h
        subst hp
        exact ⟨rfl, odLookup_odInsert_self ..⟩
      · rw [download_one_file_mismatch net dl fs uri h1 h2 h3] at h ⊢
        cases hget : net.getOut uri with
        | ok st chunks =>
          rw [finishDownload_ok net dl fs uri _ _ st chunks hget] at h ⊢
          have hp : dl.uri_to_filename uri = p := by simpa using h
          subst hp
          exact ⟨rfl, odLookup_odInsert_self ..⟩
        | exn =>
          rw [finishDownload_exn net dl fs uri _ _ hget] at h
          simp at h
    · rw [download_one_file_nofile net dl fs uri h1 h2] at h ⊢
      cases hget : net.getOut uri with
      | ok st chunks =>
        rw [finishDownload_ok net dl fs uri _ _ st chunks hget] at h ⊢
        have hp : dl.uri_to_filename uri = p := by simpa using h
        subst hp
        exact ⟨rfl, odLookup_odInsert_self ..⟩
      | exn =>
        rw [finishDownload_exn net dl fs uri _ _ hget] at h
        simp at h

theorem finish_preserves (net : Net) (dl : Downloader) (fs : FS) (uri : String)
    (reqs0 : List Request)
    (hOK : RecordOK net dl fs) (hP : RecordPaths dl)
    (hNA : ∀ u p, odLookup u dl.downloaded_files_by_uri = some p → ¬ u = uri →
      ¬ p = dl.uri_to_filename uri)
    (hUriNone : odLookup uri dl.downloaded_files_by_uri = none) :
    RecordOK net (finishDownload net dl fs uri (dl.uri_to_filename uri) reqs0).dl
      (finishDownload net dl fs uri (dl.uri_to_filename uri) reqs0).fs ∧
    RecordPaths (finishDownload net dl fs uri (dl.uri_to_filename uri) reqs0).dl ∧
    (∀ u p,
      odLookup u (finishDownload net dl fs uri (dl.uri_to_filename uri) reqs0).dl.downloaded_files_by_uri
        = some p → u = uri ∨ odLookup u dl.downloaded_files_by_uri = some p) := by
  cases hget : net.getOut uri with
  | ok st chunks =>
    rw [finishDownload_ok net dl fs uri _ reqs0 st chunks hget]
    refine ⟨?_, ?_, ?_⟩
    · intro u p hup
      by_cases hu : u = uri
      · subst hu
        rw [odLookup_odInsert_self] at hup
        have hpf : dl.uri_to_filename u = p := by simpa using hup
        subst hpf
        constructor
        · exact FS.isfile_write_self ..
        · right
          rw [FS.content_write_self]
          simp [getBody, hget]
      · rw [odLookup_odInsert_ne _ _ _ _ hu] at hup
        have hpne : ¬ p = dl.uri_to_filename uri := hNA u p hup hu
        have hold := hOK u p hup
        constructor
        · rw [FS.isfile_write_ne _ _ _ _ hpne, FS.mkdirsIf_isfile]
          exact hold.1
        · rcases hold.2 with hsz | hct
          · left
            rw [FS.size_write_ne _ _ _ _ hpne, FS.mkdirsIf_size]
            exact hsz
          · right
            rw [FS.content_write_ne _ _ _ _ hpne, FS.mkdirsIf_content]
            exact hct
    · intro u p hup
      by_cases hu : u = uri
      · subst hu
        rw [odLookup_odInsert_self] at hup
        have hpf : dl.uri_to_filename u = p := by simpa using hup
        exact hpf.symm
      · rw [odLookup_odInsert_ne _ _ _ _ hu] at hup
        exact hP u p hup
    · intro u p hup
      by_cases hu : u = uri
      · exact Or.inl hu
      · rw [odLookup_odInsert_ne _ _ _ _ hu] at hup
        exact Or.inr hup
  | exn =>
    rw [finishDownload_exn net dl fs uri _ reqs0 hget]
    refine ⟨?_, hP, fun u p hup => Or.inr hup⟩
    intro u p hup
    by_cases hu : u = uri
    · subst hu
      rw [hUriNone] at hup
      cases hup
    · have hpne : ¬ p = dl.uri_to_filename uri := hNA u p hup hu
      have hold := hOK u p hup
      constructor
      · rw [FS.isfile_write_ne _ _ _ _ hpne, FS.mkdirsIf_isfile]
        exact hold.1
      · rcases hold.2 with hsz | hct
        · left
          rw [FS.size_write_ne _ _ _ _ hpne, FS.mkdirsIf_size]
          exact hsz
        · right
          rw [FS.content_write_ne _ _ _ _ hpne, FS.mkdirsIf_content]
          exact hct

theorem step_preserves (net : Net) (dl : Downloader) (fs : FS) (uri : String)
    (hOK : RecordOK net dl fs) (hP : RecordPaths dl)
    (hNA : ∀ u p, odLookup u dl.downloaded_files_by_uri = some p → ¬ u = uri →
      ¬ p = dl.uri_to_filename uri) :
    RecordOK net (download_one_file net dl fs uri).dl (download_one_file net dl fs uri).fs ∧
    RecordPaths (download_one_file net dl fs uri).dl ∧
    (∀ u p, odLookup u (download_one_file net dl fs uri).dl.downloaded_files_by_uri = some p →
      u = uri ∨ odLookup u dl.downloaded_files_by_uri = some p) := by
  by_cases h1 : odLookup uri dl.downloaded_files_by_uri = some (dl.uri_to_filename uri)
  · rw [download_one_file_hit net dl fs uri h1]
    exact ⟨hOK, hP, fun u p hup => Or.inr hup⟩
  · have hUriNone : odLookup uri dl.downloaded_files_by_uri = none := by
      cases hlook : odLookup uri dl.downloaded_files_by_uri with
      | none => rfl
      | some q =>
        have hq := hP uri q hlook
        rw [hq] at hlook
        exact absurd hlook h1
    by_cases h2 : fs.isfile (dl.uri_to_filename uri) = true
    · by_cases h3 : (url_and_file_size_diff net fs uri (dl.uri_to_filename uri)).1 = some 0
      · rw [download_one_file_size0 net dl fs uri h1 h2 h3]
        have hsz : net.headCL uri = some (fs.size (dl.uri_to_filename uri)) := by
          cases hcl : net.headCL uri with
          | none =>
            rw [url_and_file_size_diff_fst_none net fs uri _ hcl] at h3
            cases h3
          | some n =>
            rw [url_and_file_size_diff_fst_some net fs uri _ n hcl] at h3
            have hz : (n : Int) - (fs.size (dl.uri_to_filename uri) : Int) = 0 := by
              simpa using h3
            have hn : n = fs.size (dl.uri_to_filename uri) := by omega
            rw [hn]
        refine ⟨?_, ?_, ?_⟩
        · intro u p hup
          by_cases hu : u = uri
          · subst hu
            rw [odLookup_odInsert_self] at hup
            have hpf : dl.uri_to_filename u = p := by simpa using hup
            subst hpf
            exact ⟨h2, Or.inl hsz⟩
          · rw [odLookup_odInsert_ne _ _ _ _ hu] at hup
            exact hOK u p hup
        · intro u p hup
          by_cases hu : u = uri
          · subst hu
            rw [odLookup_odInsert_self] at hup
            have hpf : dl.uri_to_filename u = p := by simpa using hup
            exact hpf.symm
          · rw [odLookup_odInsert_ne _ _ _ _ hu] at hup
            exact hP u p hup
        · intro u p hup
          by_cases hu : u = uri
          · exact Or.inl hu
          · rw [odLookup_odInsert_ne _ _ _ _ hu] at hup
            exact Or.inr hup
      · rw [download_one_file_mismatch net dl fs uri h1 h2 h3]
        exact finish_preserves net dl fs uri [Request.head uri] hOK hP hNA hUriNone
    · rw [download_one_file_nofile net dl fs uri h1 h2]
      exact finish_preserves net dl fs uri [] hOK hP hNA hUriNone

theorem runCalls_preserves (net : Net) (dir : String) :
    ∀ (uris : List String) (dl : Downloader) (fs : FS),
    dl.download_dir = dir →
    RecordOK net dl fs → RecordPaths dl →
    (∀ u p, odLookup u dl.downloaded_files_by_uri = some p → ∀ u2 ∈ uris,
      uriToFilename dir u = uriToFilename dir u2 → u = u2) →
    (∀ u1 ∈ uris, ∀ u2 ∈ uris, uriToFilename dir u1 = uriToFilename dir u2 → u1 = u2) →
    RecordOK net (runCalls net (dl, fs) uris).1 (runCalls net (dl, fs) uris).2 := by
  intro uris
  induction uris with
  | nil =>
    intro dl fs hdir hOK hP hmix hinj
    simpa [runCalls_nil] using hOK
  | cons u us ih =>
    intro dl fs hdir hOK hP hmix hinj
    rw [runCalls_cons]
    have hNA : ∀ u2 p, odLookup u2 dl.downloaded_files_by_uri = some p → ¬ u2 = u →
        ¬ p = dl.uri_to_filename u := by
      intro u2 p hlook hne hpe
      have hq := hP u2 p hlook
      have heq : uriToFilename dir u2 = uriToFilename dir u := by
        rw [← hdir]
        show dl.uri_to_filename u2 = dl.uri_to_filename u
        rw [← hq, hpe]
      exact hne (hmix u2 p hlook u (List.mem_cons_self u us) heq)
    obtain ⟨hOK2, hP2, hsub⟩ := step_preserves net dl fs u hOK hP hNA
    have hdir2 : (download_one_file net dl fs u).dl.download_dir = dir :=
      (download_one_file_dir net dl fs u).trans hdir
    apply ih _ _ hdir2 hOK2 hP2
    · intro u2 p hlook u3 hu3 heq
      rcases hsub u2 p hlook with rfl | hold
      · exact hinj u2 (List.mem_cons_self u2 us) u3 (List.mem_cons_of_mem u2 hu3) heq
      · exact hmix u2 p hold u3 (List.mem_cons_of_mem u hu3) heq
    · intro u1 hm1 u2 hm2 heq
      exact hinj u1 (List.mem_cons_of_mem u hm1) u2 (List.mem_cons_of_mem u hm2) heq

/-! ## Heap lemmas for the record accessor -/

theorem listGetD_append_length {α : Type} (d : α) (l : List α) (v : α) :
    listGetD d (l ++ [v]) l.length = v := by
  induction l with
  | nil => rfl
  | cons x xs ih => simpa [listGetD] using ih

theorem listGetD_append_lt {α : Type} (d : α) (l : List α) (v : α) (a : Nat)
    (h : a < l.length) : listGetD d (l ++ [v]) a = listGetD d l a := by
  induction l generalizing a with
  | nil => exact absurd h (by simp)
  | cons x xs ih =>
    cases a with
    | zero => rfl
    | succ n => exact ih n (by simpa using h)

theorem listGetD_listSet_ne {α : Type} (d : α) (l : List α) (a b : Nat) (v : α)
    (h : ¬ a = b) : listGetD d (listSet l b v) a = listGetD d l a := by
  induction l generalizing a b with
  | nil => rfl
  | cons x xs ih =>
    cases b with
    | zero =>
      cases a with
      | zero => exact absurd rfl h
      | succ n => rfl
    | succ m =>
      cases a with
      | zero => rfl
      | succ n => exact ih n m fun e => h (by rw [e])

/-! ## Segment-list lemmas -/

theorem mem_joinSepChar (sep : Char) (l : List (List Char)) (c : Char)
    (h : c ∈ joinSepChar sep l) : c = sep ∨ ∃ s ∈ l, c ∈ s := by
  induction l with
  | nil => simp [joinSepChar] at h
  | cons s rest ih =>
    cases rest with
    | nil =>
      right
      exact ⟨s, by simp, by simpa [joinSepChar] using h⟩
    | cons t ts =>
      simp only [joinSepChar] at h
      rcases List.mem_append.mp h with hc | hc
      · exact Or.inr ⟨s, by simp, hc⟩
      · rcases List.mem_cons.mp hc with rfl | hc
        · exact Or.inl rfl
        · rcases ih hc with hc2 | ⟨s2, hs2, hcs⟩
          · exact Or.inl hc2
          · exact Or.inr ⟨s2, List.mem_cons_of_mem s hs2, hcs⟩

theorem isNetlocEnd_false (c : Char) (h : isNetlocEnd c = false) :
    ¬ c = '/' ∧ ¬ c = '?' ∧ ¬ c = '#' := by
  refine ⟨fun he => ?_, fun he => ?_, fun he => ?_⟩ <;>
    (subst he; exact absurd h (by decide))

theorem uriToFilenameCore_congr (dir u1 u2 : List Char)
    (hn : (urlparse u1).netloc = (urlparse u2).netloc)
    (hp : (urlparse u1).path = (urlparse u2).path) :
    uriToFilenameCore dir u1 = uriToFilenameCore dir u2 := by
  simp only [uriToFilenameCore, rel_filename_parts, hn, hp]

/-! ## Claim theorems -/

/-- Claim C1 (the code contradicts it): when the GET for a URI fails after
the HTTP layer has exhausted its retries, download_one_file does NOT skip
the write step: it opens the mapped file in wb mode, truncating it to zero
bytes, and then raises a NameError (from the unbound response variable of
_retrieve_uri_to_file), not a TransferError.  At this concrete input the
file held three bytes before the call and is empty afterwards, and no record
entry is inserted. -/
theorem c1_get_failure_truncates_file :
    (download_one_file netFail (Downloader.mk "/data" [] 1)
        (FS.mk [("/data/example.com/a/b.m3u8", [7, 7, 7])] [])
        "http://example.com/a/b.m3u8").result = Except.error PyError.nameError ∧
    (download_one_file netFail (Downloader.mk "/data" [] 1)
        (FS.mk [("/data/example.com/a/b.m3u8", [7, 7, 7])] [])
        "http://example.com/a/b.m3u8").fs.content "/data/example.com/a/b.m3u8" = [] ∧
    (FS.mk [("/data/example.com/a/b.m3u8", [7, 7, 7])] []).content
      "/data/example.com/a/b.m3u8" = [7, 7, 7] ∧
    (download_one_file netFail (Downloader.mk "/data" [] 1)
        (FS.mk [("/data/example.com/a/b.m3u8", [7, 7, 7])] [])
        "http://example.com/a/b.m3u8").dl.downloaded_files_by_uri = [] :=
  ⟨rfl, rfl, rfl, rfl⟩

/-- Claim C3 (counterexample): on the spec example the mapper does not
return the claimed path with an underscore in the host: the dot of the host
is preserved by filter_filename_part, which slugifies the dot-delimited
pieces separately and rejoins them with dots. -/
theorem c3_example_mapping_counterexample :
    ¬ (Downloader.mk "/data" [] 1).uri_to_filename "http://example.com/a/b.m3u8"
      = "/data/example_com/a/b.m3u8" := by
  decide

/-- Claim C3 (amended): mapToLocalPath on the input of the spec scenario
with download directory /data returns exactly /data/example.com/a/b.m3u8:
the host keeps its dot, the platform separator joins the segments, and the
final dot before the extension is preserved. -/
theorem c3_example_mapping_amended :
    (Downloader.mk "/data" [] 1).uri_to_filename "http://example.com/a/b.m3u8"
      = "/data/example.com/a/b.m3u8" := by
  decide

/-- Claim C8: mapToLocalPath is deterministic and depends only on the
configured download directory: two coordinator states with the same
download directory map every URI to the same path.  In the embedding the
method is a pure function of the state and the URI (it takes no filesystem
and no network argument), so it has no side effects by construction. -/
theorem c8_map_to_local_path_deterministic (d1 d2 : Downloader) (uri : String)
    (h : d1.download_dir = d2.download_dir) :
    d1.uri_to_filename uri = d2.uri_to_filename uri := by
  simp only [Downloader.uri_to_filename, h]

/-- Witness for C8 at two concrete states differing in record and worker
hint but sharing the download directory. -/
theorem c8_map_to_local_path_deterministic_witness :
    (Downloader.mk "/data" [] 1).uri_to_filename "http://h/x"
      = (Downloader.mk "/data" [("a", "b")] 7).uri_to_filename "http://h/x" :=
  c8_map_to_local_path_deterministic (Downloader.mk "/data" [] 1)
    (Downloader.mk "/data" [("a", "b")] 7) "http://h/x" rfl

/-- Claim C9: downloaded_files_by_url returns a copy of the record: the
returned dictionary holds the same entries in the same insertion order, it
is a fresh object distinct from the internal one, and mutating the returned
object leaves the internal record unchanged. -/
theorem c9_downloaded_record_copy (h : DictHeap) (r : Nat) (hr : r < h.cells.length) :
    DictHeap.get (downloaded_files_by_url h r).1 (downloaded_files_by_url h r).2
      = DictHeap.get h r ∧
    ¬ (downloaded_files_by_url h r).2 = r ∧
    ∀ v, DictHeap.get (DictHeap.set (downloaded_files_by_url h r).1
        (downloaded_files_by_url h r).2 v) r = DictHeap.get h r := by
  refine ⟨?_, ?_, ?_⟩
  · exact listGetD_append_length [] h.cells (DictHeap.get h r)
  · intro he
    have h2 : h.cells.length = r := he
    omega
  · intro v
    have h1 : listGetD [] (listSet (h.cells ++ [DictHeap.get h r]) h.cells.length v) r
        = listGetD [] (h.cells ++ [DictHeap.get h r]) r :=
      listGetD_listSet_ne [] (h.cells ++ [DictHeap.get h r]) r h.cells.length v (by omega)
    have h2 := listGetD_append_lt [] h.cells (DictHeap.get h r) r hr
    exact h1.trans h2

/-- Witness for C9 on a one-cell heap. -/
theorem c9_downloaded_record_copy_witness :
    DictHeap.get (downloaded_files_by_url ⟨[[("u", "p")]]⟩ 0).1
        (downloaded_files_by_url ⟨[[("u", "p")]]⟩ 0).2
      = DictHeap.get ⟨[[("u", "p")]]⟩ 0 ∧
    ¬ (downloaded_files_by_url ⟨[[("u", "p")]]⟩ 0).2 = 0 ∧
    ∀ v, DictHeap.get (DictHeap.set (downloaded_files_by_url ⟨[[("u", "p")]]⟩ 0).1
        (downloaded_files_by_url ⟨[[("u", "p")]]⟩ 0).2 v) 0 = DictHeap.get ⟨[[("u", "p")]]⟩ 0 :=
  c9_downloaded_record_copy ⟨[[("u", "p")]]⟩ 0 (by decide)

/-- Claim C4: when a first download_one_file call for a URI returns a path,
a second call for the same URI in the same session (the remote content,
modelled by the fixed oracle, unchanged) returns the same path, issues no
network request at all (the request log of the second call is empty) and
changes neither the coordinator state nor the filesystem: it short-circuits
on the in-memory record. -/
theorem c4_download_one_idempotent (net : Net) (dl : Downloader) (fs : FS) (uri p : String)
    (h : (download_one_file net dl fs uri).result = Except.ok p) :
    download_one_file net (download_one_file net dl fs uri).dl
        (download_one_file net dl fs uri).fs uri
      = ⟨(download_one_file net dl fs uri).dl, (download_one_file net dl fs uri).fs, [],
          Except.ok p⟩ := by
  obtain ⟨hp, hlook⟩ := download_one_file_success net dl fs uri p h
  have hdir : (download_one_file net dl fs uri).dl.download_dir = dl.download_dir :=
    download_one_file_dir net dl fs uri
  have hfn : (download_one_file net dl fs uri).dl.uri_to_filename uri = p := by
    simp only [Downloader.uri_to_filename, hdir]
    exact hp.symm
  have hlook2 : odLookup uri (download_one_file net dl fs uri).dl.downloaded_files_by_uri
      = some ((download_one_file net dl fs uri).dl.uri_to_filename uri) := by
    rw [hfn]
    exact hlook
  rw [download_one_file_hit net _ _ uri hlook2, hfn]

/-- Witness for C4: a fresh URI is fetched once, then the second call
returns the same path with no request. -/
theorem c4_download_one_idempotent_witness :
    download_one_file netChunks
        (download_one_file netChunks (Downloader.mk "/d" [] 1) (FS.mk [] []) "http://h/x").dl
        (download_one_file netChunks (Downloader.mk "/d" [] 1) (FS.mk [] []) "http://h/x").fs
        "http://h/x"
      = ⟨(download_one_file netChunks (Downloader.mk "/d" [] 1) (FS.mk [] []) "http://h/x").dl,
          (download_one_file netChunks (Downloader.mk "/d" [] 1) (FS.mk [] []) "http://h/x").fs,
          [], Except.ok "/d/h/x"⟩ :=
  c4_download_one_idempotent netChunks (Downloader.mk "/d" [] 1) (FS.mk [] [])
    "http://h/x" "/d/h/x" rfl

/-- Claim C5: for a URI not yet in the record, when a file already exists at
the mapped path and its size equals the Content-Length reported by the HEAD
request, download_one_file records the mapping, returns the path, leaves the
filesystem untouched and issues exactly one HEAD and zero GET requests. -/
theorem c5_complete_file_not_redownloaded (net : Net) (dl : Downloader) (fs : FS) (uri : String)
    (hrec : odLookup uri dl.downloaded_files_by_uri = none)
    (hfile : fs.isfile (dl.uri_to_filename uri) = true)
    (hsize : net.headCL uri = some (fs.size (dl.uri_to_filename uri))) :
    download_one_file net dl fs uri =
      ⟨{ dl with downloaded_files_by_uri :=
          odInsert uri (dl.uri_to_filename uri) dl.downloaded_files_by_uri },
        fs, [Request.head uri], Except.ok (dl.uri_to_filename uri)⟩ := by
  have h1 : ¬ odLookup uri dl.downloaded_files_by_uri = some (dl.uri_to_filename uri) := by
    rw [hrec]
    simp
  have h3 : (url_and_file_size_diff net fs uri (dl.uri_to_filename uri)).1 = some 0 := by
    rw [url_and_file_size_diff_fst_some net fs uri _ _ hsize]
    simp
  exact download_one_file_size0 net dl fs uri h1 hfile h3

/-- Witness for C5: an existing three-byte file with matching Content-Length
is not re-downloaded (the GET of this oracle would fail, so a successful
call proves no GET was issued). -/
theorem c5_complete_file_not_redownloaded_witness :
    download_one_file netHead3 (Downloader.mk "/d" [] 1)
        (FS.mk [("/d/h/x", [9, 9, 9])] []) "http://h/x" =
      ⟨Downloader.mk "/d"
          (odInsert "http://h/x" ((Downloader.mk "/d" [] 1).uri_to_filename "http://h/x") []) 1,
        FS.mk [("/d/h/x", [9, 9, 9])] [], [Request.head "http://h/x"],
        Except.ok ((Downloader.mk "/d" [] 1).uri_to_filename "http://h/x")⟩ :=
  c5_complete_file_not_redownloaded netHead3 (Downloader.mk "/d" [] 1)
    (FS.mk [("/d/h/x", [9, 9, 9])] []) "http://h/x" rfl (by decide) (by decide)

/-- Claim C6: for a URI whose mapped path names an existing local file, when
the HEAD response carries no Content-Length, download_one_file does not
raise an error at that point: it proceeds to a GET (the request log is the
HEAD followed by the GET) and overwrites the local file with the full
fetched body, returning the path. -/
theorem c6_missing_content_length_refetches (net : Net) (dl : Downloader) (fs : FS)
    (uri : String) (st : Nat) (chunks : List (List Nat))
    (hrec : ¬ odLookup uri dl.downloaded_files_by_uri = some (dl.uri_to_filename uri))
    (hfile : fs.isfile (dl.uri_to_filename uri) = true)
    (hcl : net.headCL uri = none)
    (hget : net.getOut uri = GetOutcome.ok st chunks) :
    (download_one_file net dl fs uri).result = Except.ok (dl.uri_to_filename uri) ∧
    (download_one_file net dl fs uri).reqs = [Request.head uri, Request.get uri] ∧
    (download_one_file net dl fs uri).fs.content (dl.uri_to_filename uri) = chunks.flatten := by
  have h3 : ¬ (url_and_file_size_diff net fs uri (dl.uri_to_filename uri)).1 = some 0 := by
    rw [url_and_file_size_diff_fst_none net fs uri _ hcl]
    simp
  rw [download_one_file_mismatch net dl fs uri hrec hfile h3,
    finishDownload_ok net dl fs uri _ _ st chunks hget]
  exact ⟨rfl, rfl, FS.content_write_self ..⟩

/-- Witness for C6: an existing one-byte file is overwritten with the
two-chunk body when HEAD reports no Content-Length. -/
theorem c6_missing_content_length_refetches_witness :
    (download_one_file netChunks (Downloader.mk "/d" [] 1)
        (FS.mk [("/d/h/x", [1])] []) "http://h/x").result
      = Except.ok ((Downloader.mk "/d" [] 1).uri_to_filename "http://h/x") ∧
    (download_one_file netChunks (Downloader.mk "/d" [] 1)
        (FS.mk [("/d/h/x", [1])] []) "http://h/x").reqs
      = [Request.head "http://h/x", Request.get "http://h/x"] ∧
    (download_one_file netChunks (Downloader.mk "/d" [] 1)
        (FS.mk [("/d/h/x", [1])] []) "http://h/x").fs.content
        ((Downloader.mk "/d" [] 1).uri_to_filename "http://h/x")
      = ([[5], [6]] : List (List Nat)).flatten :=
  c6_missing_content_length_refetches netChunks (Downloader.mk "/d" [] 1)
    (FS.mk [("/d/h/x", [1])] []) "http://h/x" 200 [[5], [6]]
    (by decide) (by decide) rfl rfl

/-- Claim C7 (counterexample): on http with host h and path a//b, the code
drops the empty segment between the two slashes (the comprehension keeps
only nonempty pieces), so the raw segment list is not the claimed
[host, a, empty, b]. -/
theorem c7_raw_segments_counterexample :
    ¬ rel_filename_parts ("http://h/a//b").data
      = [['h'], ['a'], ([] : List Char), ['b']] := by
  decide

/-- Claim C7 (amended): for an absolute URI built from a valid scheme, a
host and slash-separated path segments, the raw segment list built by
uri_to_filename is the host followed by the path segments in order with
every empty segment dropped (not only the leading one). -/
theorem c7_raw_segments_amended (scheme host : List Char) (segs : List (List Char))
    (h1 : scheme ≠ []) (h2 : ∀ c ∈ scheme, isSchemeChar c = true)
    (h3 : isAlphaAscii (scheme.headD ' ') = true)
    (hh : ∀ c ∈ host, isNetlocEnd c = false)
    (hsegs : ∀ s ∈ segs, ∀ c ∈ s, isNetlocEnd c = false ∧ ¬ c = ';') :
    rel_filename_parts (mkUriCore scheme host ('/' :: joinSepChar '/' segs) [] []) =
      host :: segs.filter (fun s => !s.isEmpty) := by
  have hjoin : ∀ c ∈ joinSepChar '/' segs, c = '/' ∨ ∃ s ∈ segs, c ∈ s := fun c hc =>
    mem_joinSepChar '/' segs c hc
  have hpchars : ∀ c ∈ ('/' :: joinSepChar '/' segs), ¬ c = '?' ∧ ¬ c = '#' := by
    intro c hc
    rcases List.mem_cons.mp hc with rfl | hc
    · exact ⟨by decide, by decide⟩
    · rcases hjoin c hc with rfl | ⟨s, hs, hcs⟩
      · exact ⟨by decide, by decide⟩
      · have hne := isNetlocEnd_false c (hsegs s hs c hcs).1
        exact ⟨hne.2.1, hne.2.2⟩
  have hparse := urlparse_mkUri scheme host ('/' :: joinSepChar '/' segs) [] []
    h1 h2 h3 hh (Or.inr ⟨joinSepChar '/' segs, rfl⟩) hpchars (by intro c hc; simp at hc)
  have hsemi : ∀ c ∈ ('/' :: joinSepChar '/' segs), ¬ c = ';' := by
    intro c hc
    rcases List.mem_cons.mp hc with rfl | hc
    · decide
    · rcases hjoin c hc with rfl | ⟨s, hs, hcs⟩
      · decide
      · exact (hsegs s hs c hcs).2
  have hnoslash : ∀ s ∈ segs, ∀ c ∈ s, ¬ c = '/' := by
    intro s hs c hcs
    exact (isNetlocEnd_false c (hsegs s hs c hcs).1).1
  simp only [rel_filename_parts, hparse.1, hparse.2, splitparams_no_semi _ hsemi,
    splitOnChar_cons_sep, splitOnChar_joinSep '/' segs hnoslash]
  cases segs with
  | nil => simp
  | cons s ss => simp

/-- Witness for C7 on scheme http, host h and segments [a, empty, b]. -/
theorem c7_raw_segments_amended_witness :
    rel_filename_parts (mkUriCore ['h', 't', 't', 'p'] ['h']
        ('/' :: joinSepChar '/' [['a'], [], ['b']]) [] []) =
      ['h'] :: ([['a'], [], ['b']] : List (List Char)).filter (fun s => !s.isEmpty) :=
  c7_raw_segments_amended ['h', 't', 't', 'p'] ['h'] [['a'], [], ['b']]
    (by decide) (by decide) (by decide) (by decide) (by decide)

/-- Claim C10: two absolute URIs sharing scheme, host and path and differing
only in their query string or fragment are mapped to the same local path,
since the mapper uses only the host and path components. -/
theorem c10_query_fragment_ignored (d : Downloader) (scheme host path q1 f1 q2 f2 : String)
    (h1 : scheme.data ≠ []) (h2 : ∀ c ∈ scheme.data, isSchemeChar c = true)
    (h3 : isAlphaAscii (scheme.data.headD ' ') = true)
    (hh : ∀ c ∈ host.data, isNetlocEnd c = false)
    (hp0 : path.data = [] ∨ ∃ t, path.data = '/' :: t)
    (hp : ∀ c ∈ path.data, ¬ c = '?' ∧ ¬ c = '#')
    (hq1 : ∀ c ∈ q1.data, ¬ c = '#') (hq2 : ∀ c ∈ q2.data, ¬ c = '#') :
    d.uri_to_filename (mkUri scheme host path q1 f1)
      = d.uri_to_filename (mkUri scheme host path q2 f2) := by
  have hA := urlparse_mkUri scheme.data host.data path.data q1.data f1.data
    h1 h2 h3 hh hp0 hp hq1
  have hB := urlparse_mkUri scheme.data host.data path.data q2.data f2.data
    h1 h2 h3 hh hp0 hp hq2
  show String.mk (uriToFilenameCore d.download_dir.data
      (mkUriCore scheme.data host.data path.data q1.data f1.data))
    = String.mk (uriToFilenameCore d.download_dir.data
      (mkUriCore scheme.data host.data path.data q2.data f2.data))
  exact congrArg String.mk (uriToFilenameCore_congr d.download_dir.data _ _
    (hA.1.trans hB.1.symm) (hA.2.trans hB.2.symm))

/-- Witness for C10: the query x and the fragment y do not change the
mapped path. -/
theorem c10_query_fragment_ignored_witness :
    (Downloader.mk "/d" [] 1).uri_to_filename (mkUri "http" "h" "/a" "x" "")
      = (Downloader.mk "/d" [] 1).uri_to_filename (mkUri "http" "h" "/a" "" "y") :=
  c10_query_fragment_ignored (Downloader.mk "/d" [] 1) "http" "h" "/a" "x" "" "" "y"
    (by decide) (by decide) (by decide) (by decide) (Or.inr ⟨['a'], rfl⟩)
    (by decide) (by decide) (by decide)

/-- Claim C2 (counterexample): the record invariant fails as stated, because
two distinct URIs can map to the same local path (the query is ignored).
After downloading http with host h and path f (three bytes) and then the
same path with query x (one byte, overwriting the same file), the record
still holds the first URI, but the file at its path has a different size
than anything ever reported or fetched for that URI. -/
theorem c2_invariant_counterexample :
    ¬ RecordOK netAlias
      (runCalls netAlias (Downloader.init "/d" 1, FS.mk [] []) ["http://h/f", "http://h/f?x"]).1
      (runCalls netAlias (Downloader.init "/d" 1, FS.mk [] []) ["http://h/f", "http://h/f?x"]).2 := by
  intro h
  have h2 := h "http://h/f" "/d/h/f" (by decide)
  rcases h2.2 with h3 | h4
  · exact absurd h3 (by decide)
  · exact absurd h4 (by decide)

/-- Claim C2 (amended): for every session starting from a fresh coordinator
and every sequence of download_one_file calls in which no two distinct
requested URIs map to the same local path, every URI in the record points to
an existing file whose size matches the Content-Length last reported for
that URI, or whose content is exactly the full body fetched for that URI;
in particular a failed fetch never inserts a record entry. -/
theorem c2_record_invariant_no_aliasing (net : Net) (dir : String) (nproc : Nat) (fs0 : FS)
    (uris : List String)
    (hinj : ∀ u1 ∈ uris, ∀ u2 ∈ uris, uriToFilename dir u1 = uriToFilename dir u2 → u1 = u2) :
    RecordOK net (runCalls net (Downloader.init dir nproc, fs0) uris).1
      (runCalls net (Downloader.init dir nproc, fs0) uris).2 := by
  refine runCalls_preserves net dir uris (Downloader.init dir nproc) fs0 rfl ?_ ?_ ?_ hinj
  · intro u p hup
    simp [Downloader.init, odLookup] at hup
  · intro u p hup
    simp [Downloader.init, odLookup] at hup
  · intro u p hup
    simp [Downloader.init, odLookup] at hup

/-- Witness for C2 on a one-call session with pairwise distinct paths. -/
theorem c2_record_invariant_no_aliasing_witness :
    RecordOK netChunks
      (runCalls netChunks (Downloader.init "/d" 1, FS.mk [] []) ["http://h/x"]).1
      (runCalls netChunks (Downloader.init "/d" 1, FS.mk [] []) ["http://h/x"]).2 :=
  c2_record_invariant_no_aliasing netChunks "/d" 1 (FS.mk [] []) ["http://h/x"]
    (by
      intro u1 hm1 u2 hm2 _
      rw [List.mem_singleton] at hm1 hm2
      rw [hm1, hm2])

end Hls
